import Mathlib

/-!
Shallow embedding of `src/cluster.cpp` (SparseClustering): cosine similarity
over sorted peak lists, a string-keyed bucket index, and two greedy
cluster-assignment drivers.  Floating-point values are modelled as exact
rationals; machine `int` indices are natural numbers.  The merge-walk loop of
`cosine_similarity` is written with an explicit fuel argument (the loop in the
source advances at least one cursor per iteration, so `num_peaks a + num_peaks b`
fuel always suffices; this is proved below), keeping every definition
kernel-executable.
-/

namespace SparseClustering

/-- Modelled from the spec: the record `spectrum_t` is declared in
`spectra.cpp`, which is not among the sources; §3 of the design document
defines it as a floating-point `pepmass`, an ordered list `peaks` of
floating-point mass values and a positionally aligned list `intensities`
of the same length. -/
structure Spectrum where
  pepmass : ℚ
  peaks : List ℚ
  intensities : List ℚ
deriving DecidableEq, Repr

instance : Inhabited Spectrum := ⟨⟨0, [], []⟩⟩

/-- Modelled from the spec: `num_peaks` is the common length of `peaks` and
`intensities` (§3 of the design document). -/
def Spectrum.num_peaks (s : Spectrum) : ℕ := s.peaks.length

/-- `#define DEFAULT_PEPMASS_THRESHOLD 2.f` -/
def DEFAULT_PEPMASS_THRESHOLD : ℚ := 2

/-- `#define DEFAULT_PEAK_THRESHOLD 0.02f` -/
def DEFAULT_PEAK_THRESHOLD : ℚ := 1/50

/-- `#define DEFAULT_SIMILARITY_THRESHOLD 0.7f` -/
def DEFAULT_SIMILARITY_THRESHOLD : ℚ := 7/10

/-- `passes_pepmass_test`: `fabs(a.pepmass - b.pepmass) < DEFAULT_PEPMASS_THRESHOLD`. -/
def passes_pepmass_test (a b : Spectrum) : Bool :=
  decide (|a.pepmass - b.pepmass| < DEFAULT_PEPMASS_THRESHOLD)

/-- `is_identical_peak`: `fabs(a - b) < DEFAULT_PEAK_THRESHOLD` (a `peak_t` is a mass value). -/
def is_identical_peak (a b : ℚ) : Bool :=
  decide (|a - b| < DEFAULT_PEAK_THRESHOLD)

/-- The `while (i < a.num_peaks && j < b.num_peaks)` merge-walk of
`cosine_similarity`, accumulating `score`, `a_den`, `b_den`.  The branch
structure mirrors the source: matched peaks advance both cursors, otherwise
the cursor of the strictly smaller peak advances (the source guards the third
branch with `a.peaks[i] > b.peaks[j]`; over a total order the three guards are
exhaustive, so the fall-through arm, which would loop forever in C++, is
unreachable — see the termination theorem).  `fuel` bounds the number of
iterations. -/
def cosine_similarity_loop (a b : Spectrum) :
    ℕ → ℕ → ℕ → ℚ → ℚ → ℚ → ℚ × ℚ × ℚ
  | 0, _, _, score, a_den, b_den => (score, a_den, b_den)
  | fuel+1, i, j, score, a_den, b_den =>
    if i < a.num_peaks ∧ j < b.num_peaks then
      if is_identical_peak (a.peaks.getD i 0) (b.peaks.getD j 0) then
        cosine_similarity_loop a b fuel (i+1) (j+1)
          (score + a.intensities.getD i 0 * b.intensities.getD j 0)
          (a_den + (a.intensities.getD i 0)^2)
          (b_den + (b.intensities.getD j 0)^2)
      else if a.peaks.getD i 0 < b.peaks.getD j 0 then
        cosine_similarity_loop a b fuel (i+1) j
          score (a_den + (a.intensities.getD i 0)^2) b_den
      else if a.peaks.getD i 0 > b.peaks.getD j 0 then
        cosine_similarity_loop a b fuel i (j+1)
          score a_den (b_den + (b.intensities.getD j 0)^2)
      else (score, a_den, b_den)
    else (score, a_den, b_den)

/-- The accumulators `(score, a_den, b_den)` of `cosine_similarity` after the
merge-walk, run from `i = j = 0` with zero accumulators. -/
def cosine_similarity_parts (a b : Spectrum) : ℚ × ℚ × ℚ :=
  cosine_similarity_loop a b (a.num_peaks + b.num_peaks) 0 0 0 0 0

/-- `cosine_similarity`: `score / sqrt(a_den * b_den)`.  The real-valued
square root is the only non-executable operation of the program; every
decision made by the clustering code is routed through the executable
`cosine_similarity_parts` (see `is_similar` and `is_similar_iff_cosine`). -/
noncomputable def cosine_similarity (a b : Spectrum) : ℝ :=
  ((cosine_similarity_parts a b).1 : ℝ) /
    Real.sqrt (((cosine_similarity_parts a b).2.1 : ℝ) *
      ((cosine_similarity_parts a b).2.2 : ℝ))

/-- `is_similar`: `cosine_similarity(a, b) > DEFAULT_SIMILARITY_THRESHOLD`.
Stated executably over the rational accumulators: for the nonnegative
sums of squares produced by the merge-walk, `score / sqrt(a_den * b_den) > t`
(with `t > 0`) holds iff `0 < score` and `t^2 * (a_den * b_den) < score^2`;
in the degenerate zero-denominator case the source divides by zero and the
`NaN > 0.7` comparison is false, and so is this predicate.  The equivalence
with the real-valued inequality is proved in `is_similar_iff_cosine`. -/
def is_similar (a b : Spectrum) : Bool :=
  decide (0 < (cosine_similarity_parts a b).1 ∧
    DEFAULT_SIMILARITY_THRESHOLD^2 *
      ((cosine_similarity_parts a b).2.1 * (cosine_similarity_parts a b).2.2) <
      (cosine_similarity_parts a b).1^2)

/-- Number of iterations the merge-walk performs, same branch structure as
`cosine_similarity_loop`. -/
def cosine_similarity_steps (a b : Spectrum) : ℕ → ℕ → ℕ → ℕ
  | 0, _, _ => 0
  | fuel+1, i, j =>
    if i < a.num_peaks ∧ j < b.num_peaks then
      (if is_identical_peak (a.peaks.getD i 0) (b.peaks.getD j 0) then
        cosine_similarity_steps a b fuel (i+1) (j+1)
      else if a.peaks.getD i 0 < b.peaks.getD j 0 then
        cosine_similarity_steps a b fuel (i+1) j
      else if a.peaks.getD i 0 > b.peaks.getD j 0 then
        cosine_similarity_steps a b fuel i (j+1)
      else 0) + 1
    else 0

/-- `initialize_cluster`: the identity array `[0, 1, ..., sz-1]`. -/
def initialize_cluster (sz : ℕ) : List ℕ := List.range sz

/-- `snprintf(buffer, 10, "%.*f", 2, nearest/100.f)`: renders `n / 100` with
exactly two decimal digits. -/
def format_two_decimals (n : ℤ) : String :=
  (if n < 0 then "-" else "") ++ toString (n.natAbs / 100) ++ "." ++
    (if n.natAbs % 100 < 10 then "0" else "") ++ toString (n.natAbs % 100)

/-- `get_peak_bucket`: `round_peak = floorf(peak * 100)`, then
`nearest = ((int) round_peak / 2) * 2` — C++ integer division truncates
toward zero, hence `Int.tdiv` — formatted with two decimals. -/
def get_peak_bucket (peak : ℚ) : String :=
  format_two_decimals ((⌊peak * 100⌋).tdiv 2 * 2)

/-- The bucket computation as the specification words it: take the floor of
`peak * 100`, round that integer DOWN to the nearest even value (floor
division), and format the even value divided by 100 with two decimals. -/
def spec_peak_bucket (peak : ℚ) : String :=
  format_two_decimals ((⌊peak * 100⌋).fdiv 2 * 2)

/-- One insertion into a `std::set<int>`: keeps the list strictly ascending
and duplicate-free. -/
def setInsert : List ℕ → ℕ → List ℕ
  | [], x => [x]
  | y :: ys, x =>
    if x < y then x :: y :: ys
    else if x = y then y :: ys
    else y :: setInsert ys x

/-- `std::set<int> unq(candidates.begin(), candidates.end())` followed by
`candidates.assign(unq.begin(), unq.end())`: the strictly ascending
duplicate-free list of the elements. -/
def setSort (l : List ℕ) : List ℕ := l.foldl setInsert []

/-- `get_common_peak_candidates`: concatenate the bucket lists of the first
`min(5, num_peaks)` peaks' keys, then deduplicate and sort ascending through
a `std::set`.  The bucket map is modelled as a total function defaulting to
`[]`, so the source's `find != end` presence test is the no-op concatenation
of an empty list. -/
def get_common_peak_candidates (spectrum : Spectrum)
    (peak_buckets : String → List ℕ) : List ℕ :=
  setSort ((List.range (min 5 spectrum.num_peaks)).foldl
    (fun cs i => cs ++ peak_buckets (get_peak_bucket (spectrum.peaks.getD i 0))) [])

/-- `peak_buckets[key].push_back(idx)` for one key. -/
def bucketAppend (peak_buckets : String → List ℕ) (key : String) (idx : ℕ) :
    String → List ℕ :=
  fun k => if k = key then peak_buckets k ++ [idx] else peak_buckets k

/-- `bucket_spectrum_peaks`: append `idx` to the bucket of each of the first
`min(5, num_peaks)` peaks (once per peak; keys are NOT deduplicated in the
source). -/
def bucket_spectrum_peaks (peak_buckets : String → List ℕ)
    (spectrum : Spectrum) (idx : ℕ) : String → List ℕ :=
  (List.range (min 5 spectrum.num_peaks)).foldl
    (fun pb i => bucketAppend pb (get_peak_bucket (spectrum.peaks.getD i 0)) idx)
    peak_buckets

/-- The acceptance test both drivers apply to a candidate index:
`passes_pepmass_test(spectra[i], spectra[c]) && is_similar(spectra[i], spectra[c])`. -/
def accepts_candidate (s : Spectrum) (spectra : List Spectrum) (c : ℕ) : Bool :=
  passes_pepmass_test s (spectra.getD c default) && is_similar s (spectra.getD c default)

/-- The candidate scan of `cluster_spectra`: first accepted candidate wins,
`break` on success (the `new_cluster` flag of the source is the `none`
outcome). -/
def find_candidate (s : Spectrum) (spectra : List Spectrum) : List ℕ → Option ℕ
  | [] => none
  | c :: cs =>
    if accepts_candidate s spectra c then some c else find_candidate s spectra cs

/-- The body of the `for (int i...)` loop of `cluster_spectra`, acting on the
pair (clusters, peak_buckets): an accepted candidate is written to
`clusters[i]` and `i` is not registered; otherwise `clusters` is unchanged and
`i` is registered in the bucket index. -/
def cluster_step (spectra : List Spectrum)
    (st : List ℕ × (String → List ℕ)) (i : ℕ) : List ℕ × (String → List ℕ) :=
  match find_candidate (spectra.getD i default) spectra
      (get_common_peak_candidates (spectra.getD i default) st.2) with
  | some c => (st.1.set i c, st.2)
  | none => (st.1, bucket_spectrum_peaks st.2 (spectra.getD i default) i)

/-- The state (clusters, peak_buckets) of `cluster_spectra` after processing
spectra `0, ..., k-1`, starting from `clusters` and the empty bucket map. -/
def cluster_run (clusters : List ℕ) (spectra : List Spectrum) (k : ℕ) :
    List ℕ × (String → List ℕ) :=
  (List.range k).foldl (cluster_step spectra) (clusters, fun _ => [])

/-- `cluster_spectra`: run the heuristic driver over the whole input and
return the clusters array. -/
def cluster_spectra (clusters : List ℕ) (spectra : List Spectrum) : List ℕ :=
  (cluster_run clusters spectra spectra.length).1

/-- The inner `for (int j = 0; j < i; j++)` loop of `naive_cluster_spectra`:
the tested candidate is `clusters[j]`; candidates found in `seen_candidates`
are skipped; a rejected candidate is inserted into the seen set. -/
def naive_inner (spectra : List Spectrum) (s : Spectrum) (clusters : List ℕ) :
    List ℕ → List ℕ → Option ℕ
  | _, [] => none
  | seen, j :: js =>
    if clusters.getD j 0 ∈ seen then naive_inner spectra s clusters seen js
    else if accepts_candidate s spectra (clusters.getD j 0) then
      some (clusters.getD j 0)
    else naive_inner spectra s clusters (clusters.getD j 0 :: seen) js

/-- The body of the outer loop of `naive_cluster_spectra` for index `i`. -/
def naive_step (spectra : List Spectrum) (clusters : List ℕ) (i : ℕ) : List ℕ :=
  match naive_inner spectra (spectra.getD i default) clusters [] (List.range i) with
  | some c => clusters.set i c
  | none => clusters

/-- The clusters array of `naive_cluster_spectra` after processing indices
`1, ..., k-1` (the source loop starts at `i = 1`). -/
def naive_run (clusters : List ℕ) (spectra : List Spectrum) (k : ℕ) : List ℕ :=
  ((List.range k).drop 1).foldl (naive_step spectra) clusters

/-- `naive_cluster_spectra`: run the exhaustive driver over the whole input. -/
def naive_cluster_spectra (clusters : List ℕ) (spectra : List Spectrum) : List ℕ :=
  naive_run clusters spectra spectra.length

/-- `std::set<int>(clusters.begin(), clusters.end()).size()` from `main`:
the number of distinct representative values. -/
def count_clusters (clusters : List ℕ) : ℕ := (setSort clusters).length

/-- Sum of the squared intensities of the peaks from position `i` on; the
value every accumulator of the merge-walk of `cosine_similarity a a` gains
along the diagonal. -/
def tail_sq (a : Spectrum) (i : ℕ) : ℚ :=
  ∑ m ∈ Finset.Ico i a.num_peaks, (a.intensities.getD m 0)^2

/-- Invariant of the heuristic driver after processing spectra `0..k-1`:
entry lengths are stable, unprocessed entries still hold the identity,
processed entries point to earlier roots that passed both acceptance tests,
and every bucket list is a non-decreasing list of processed roots. -/
def HInv (spectra : List Spectrum) (k : ℕ) (st : List ℕ × (String → List ℕ)) : Prop :=
  st.1.length = spectra.length ∧
  (∀ j, k ≤ j → j < spectra.length → st.1.getD j 0 = j) ∧
  (∀ j, j < k → j < spectra.length →
    st.1.getD j 0 ≤ j ∧
    st.1.getD (st.1.getD j 0) 0 = st.1.getD j 0 ∧
    (st.1.getD j 0 ≠ j →
      passes_pepmass_test (spectra.getD j default)
        (spectra.getD (st.1.getD j 0) default) = true ∧
      is_similar (spectra.getD j default)
        (spectra.getD (st.1.getD j 0) default) = true)) ∧
  (∀ key : String,
    (∀ c ∈ st.2 key, c < k ∧ c < spectra.length ∧ st.1.getD c 0 = c) ∧
    List.Sorted (· ≤ ·) (st.2 key))

/-- Invariant of the naive driver after processing indices `1..k-1`. -/
def NInv (spectra : List Spectrum) (k : ℕ) (cl : List ℕ) : Prop :=
  cl.length = spectra.length ∧
  (∀ j, k ≤ j → j < spectra.length → cl.getD j 0 = j) ∧
  (∀ j, j < k → j < spectra.length →
    cl.getD j 0 ≤ j ∧
    cl.getD (cl.getD j 0) 0 = cl.getD j 0 ∧
    (cl.getD j 0 ≠ j →
      passes_pepmass_test (spectra.getD j default)
        (spectra.getD (cl.getD j 0) default) = true ∧
      is_similar (spectra.getD j default)
        (spectra.getD (cl.getD j 0) default) = true))

/-- Scenario A of the spec, spectrum S0: pepmass 500.0, peaks
[100.00, 200.00, 300.00], intensities [1, 1, 1]. -/
def exA0 : Spectrum := ⟨500, [100, 200, 300], [1, 1, 1]⟩

/-- Scenario A, spectrum S1: pepmass 500.5, same peaks and intensities. -/
def exA1 : Spectrum := ⟨1001/2, [100, 200, 300], [1, 1, 1]⟩

/-- Scenario A, spectrum S2: pepmass 550.0, same peaks and intensities. -/
def exA2 : Spectrum := ⟨550, [100, 200, 300], [1, 1, 1]⟩

/-- A pepmass chain: 500.0, 501.5 and 498.5 with identical peak lists.  The
two outer spectra are 3.0 apart yet both merge into spectrum 0. -/
def exB : List Spectrum :=
  [⟨500, [100, 200, 300], [1, 1, 1]⟩,
   ⟨1003/2, [100, 200, 300], [1, 1, 1]⟩,
   ⟨997/2, [100, 200, 300], [1, 1, 1]⟩]

/-- A spectrum whose two peaks 100.00 and 100.01 fall into the same bucket
"100.00", so registering it appends its index twice to that bucket. -/
def exDup : Spectrum := ⟨100, [100, 10001/100], [1, 1]⟩

/-- A one-peak spectrum used as a witness input. -/
def exOne : Spectrum := ⟨0, [1], [1]⟩

section Proofs

attribute [local semireducible] Rat.mul Rat.add Rat.sub Rat.inv

theorem cosine_similarity_loop_zero (a b : Spectrum) (i j : ℕ) (s d e : ℚ) :
    cosine_similarity_loop a b 0 i j s d e = (s, d, e) := rfl

theorem cosine_similarity_loop_succ (a b : Spectrum) (fuel i j : ℕ) (s d e : ℚ) :
    cosine_similarity_loop a b (fuel+1) i j s d e =
      if i < a.num_peaks ∧ j < b.num_peaks then
        if is_identical_peak (a.peaks.getD i 0) (b.peaks.getD j 0) then
          cosine_similarity_loop a b fuel (i+1) (j+1)
            (s + a.intensities.getD i 0 * b.intensities.getD j 0)
            (d + (a.intensities.getD i 0)^2)
            (e + (b.intensities.getD j 0)^2)
        else if a.peaks.getD i 0 < b.peaks.getD j 0 then
          cosine_similarity_loop a b fuel (i+1) j
            s (d + (a.intensities.getD i 0)^2) e
        else if a.peaks.getD i 0 > b.peaks.getD j 0 then
          cosine_similarity_loop a b fuel i (j+1)
            s d (e + (b.intensities.getD j 0)^2)
        else (s, d, e)
      else (s, d, e) := rfl

/-- Extra fuel beyond the remaining-cursor measure does not change the
merge-walk's result. -/
theorem cosine_similarity_loop_stable (a b : Spectrum) : ∀ fuel i j (s d e : ℚ),
    a.num_peaks - i + (b.num_peaks - j) ≤ fuel →
    cosine_similarity_loop a b (fuel+1) i j s d e =
      cosine_similarity_loop a b fuel i j s d e := by
  intro fuel
  induction fuel with
  | zero =>
    intro i j s d e h
    have hg : ¬(i < a.num_peaks ∧ j < b.num_peaks) := by omega
    rw [cosine_similarity_loop_succ, if_neg hg, cosine_similarity_loop_zero]
  | succ f ih =>
    intro i j s d e h
    conv_lhs => rw [cosine_similarity_loop_succ]
    conv_rhs => rw [cosine_similarity_loop_succ]
    by_cases hg : i < a.num_peaks ∧ j < b.num_peaks
    · rw [if_pos hg, if_pos hg]
      by_cases hid : is_identical_peak (a.peaks.getD i 0) (b.peaks.getD j 0)
      · rw [if_pos hid, if_pos hid]
        exact ih _ _ _ _ _ (by omega)
      · rw [if_neg hid, if_neg hid]
        by_cases hlt : a.peaks.getD i 0 < b.peaks.getD j 0
        · rw [if_pos hlt, if_pos hlt]
          exact ih _ _ _ _ _ (by omega)
        · rw [if_neg hlt, if_neg hlt]
          by_cases hgt : a.peaks.getD i 0 > b.peaks.getD j 0
          · rw [if_pos hgt, if_pos hgt]
            exact ih _ _ _ _ _ (by omega)
          · rw [if_neg hgt, if_neg hgt]
    · rw [if_neg hg, if_neg hg]

/-- Any two sufficient fuel values give the same merge-walk result. -/
theorem cosine_similarity_loop_fuel_free (a b : Spectrum) :
    ∀ extra fuel i j (s d e : ℚ), a.num_peaks - i + (b.num_peaks - j) ≤ fuel →
    cosine_similarity_loop a b (fuel + extra) i j s d e =
      cosine_similarity_loop a b fuel i j s d e := by
  intro extra
  induction extra with
  | zero => intro fuel i j s d e _; rfl
  | succ x ih =>
    intro fuel i j s d e h
    have h1 : fuel + (x + 1) = (fuel + x) + 1 := by omega
    rw [h1, cosine_similarity_loop_stable a b (fuel + x) i j s d e (by omega),
      ih fuel i j s d e h]

/-- The merge-walk performs at most one iteration per unit of the combined
remaining-cursor measure. -/
theorem cosine_similarity_steps_le (a b : Spectrum) : ∀ fuel i j,
    cosine_similarity_steps a b fuel i j ≤
      (a.num_peaks - i) + (b.num_peaks - j) := by
  intro fuel
  induction fuel with
  | zero => intro i j; simp [cosine_similarity_steps]
  | succ f ih =>
    intro i j
    show (if i < a.num_peaks ∧ j < b.num_peaks then _ + 1 else 0) ≤ _
    by_cases hg : i < a.num_peaks ∧ j < b.num_peaks
    · rw [if_pos hg]
      by_cases hid : is_identical_peak (a.peaks.getD i 0) (b.peaks.getD j 0)
      · rw [if_pos hid]
        have := ih (i+1) (j+1)
        omega
      · rw [if_neg hid]
        by_cases hlt : a.peaks.getD i 0 < b.peaks.getD j 0
        · rw [if_pos hlt]
          have := ih (i+1) j
          omega
        · rw [if_neg hlt]
          by_cases hgt : a.peaks.getD i 0 > b.peaks.getD j 0
          · rw [if_pos hgt]
            have := ih i (j+1)
            omega
          · rw [if_neg hgt]
            omega
    · rw [if_neg hg]
      omega

/-- A peak is identical to itself: `|x - x| = 0 < 0.02`. -/
theorem is_identical_peak_self (x : ℚ) : is_identical_peak x x = true := by
  simp [is_identical_peak, DEFAULT_PEAK_THRESHOLD]

/-- When the identity test fails the two peaks are strictly ordered one way
or the other: the three branch guards of the merge-walk are exhaustive. -/
theorem is_identical_peak_false_lt {x y : ℚ}
    (h : is_identical_peak x y = false) : x < y ∨ y < x := by
  rcases lt_trichotomy x y with hlt | heq | hgt
  · exact Or.inl hlt
  · rw [heq] at h
    rw [is_identical_peak_self] at h
    cases h
  · exact Or.inr hgt

/-- The accumulated denominators are sums of squares: they stay nonnegative,
and a nonzero score forces both of them strictly positive (every score term
`ia * ib` contributes `ia^2` and `ib^2` to the denominators). -/
theorem cosine_similarity_loop_nonneg (a b : Spectrum) : ∀ fuel i j (s d e : ℚ),
    0 ≤ d → 0 ≤ e → (s ≠ 0 → 0 < d ∧ 0 < e) →
    0 ≤ (cosine_similarity_loop a b fuel i j s d e).2.1 ∧
    0 ≤ (cosine_similarity_loop a b fuel i j s d e).2.2 ∧
    ((cosine_similarity_loop a b fuel i j s d e).1 ≠ 0 →
      0 < (cosine_similarity_loop a b fuel i j s d e).2.1 ∧
      0 < (cosine_similarity_loop a b fuel i j s d e).2.2) := by
  intro fuel
  induction fuel with
  | zero =>
    intro i j s d e hd he hs
    rw [cosine_similarity_loop_zero]
    exact ⟨hd, he, hs⟩
  | succ f ih =>
    intro i j s d e hd he hs
    rw [cosine_similarity_loop_succ]
    by_cases hg : i < a.num_peaks ∧ j < b.num_peaks
    · rw [if_pos hg]
      by_cases hid : is_identical_peak (a.peaks.getD i 0) (b.peaks.getD j 0)
      · rw [if_pos hid]
        refine ih _ _ _ _ _ (by positivity) (by positivity) ?_
        intro hs'
        by_cases hz : s = 0
        · rw [hz, zero_add] at hs'
          have ha0 : a.intensities.getD i 0 ≠ 0 := left_ne_zero_of_mul hs'
          have hb0 : b.intensities.getD j 0 ≠ 0 := right_ne_zero_of_mul hs'
          have ha2 : 0 < (a.intensities.getD i 0)^2 := by positivity
          have hb2 : 0 < (b.intensities.getD j 0)^2 := by positivity
          constructor <;> nlinarith
        · obtain ⟨hd', he'⟩ := hs hz
          have ha2 : 0 ≤ (a.intensities.getD i 0)^2 := sq_nonneg _
          have hb2 : 0 ≤ (b.intensities.getD j 0)^2 := sq_nonneg _
          constructor <;> nlinarith
      · rw [if_neg hid]
        by_cases hlt : a.peaks.getD i 0 < b.peaks.getD j 0
        · rw [if_pos hlt]
          refine ih _ _ _ _ _ (by positivity) he ?_
          intro hs'
          obtain ⟨hd', he'⟩ := hs hs'
          have ha2 : 0 ≤ (a.intensities.getD i 0)^2 := sq_nonneg _
          exact ⟨by nlinarith, he'⟩
        · rw [if_neg hlt]
          by_cases hgt : a.peaks.getD i 0 > b.peaks.getD j 0
          · rw [if_pos hgt]
            refine ih _ _ _ _ _ hd (by positivity) ?_
            intro hs'
            obtain ⟨hd', he'⟩ := hs hs'
            have hb2 : 0 ≤ (b.intensities.getD j 0)^2 := sq_nonneg _
            exact ⟨hd', by nlinarith⟩
          · rw [if_neg hgt]
            exact ⟨hd, he, hs⟩
    · rw [if_neg hg]
      exact ⟨hd, he, hs⟩

/-- The accumulators of `cosine_similarity`: nonnegative denominators, and a
nonzero score forces both strictly positive. -/
theorem cosine_similarity_parts_nonneg (a b : Spectrum) :
    0 ≤ (cosine_similarity_parts a b).2.1 ∧
    0 ≤ (cosine_similarity_parts a b).2.2 ∧
    ((cosine_similarity_parts a b).1 ≠ 0 →
      0 < (cosine_similarity_parts a b).2.1 ∧
      0 < (cosine_similarity_parts a b).2.2) := by
  exact cosine_similarity_loop_nonneg a b _ 0 0 0 0 0 le_rfl le_rfl
    (fun h => absurd rfl h)

/-- The executable `is_similar` decides exactly the source's
`cosine_similarity(a, b) > DEFAULT_SIMILARITY_THRESHOLD` over the reals
(division by the zero denominator follows the junk-value convention and, like
the `NaN` comparison in C++, is not similar). -/
theorem is_similar_iff_cosine (a b : Spectrum) :
    is_similar a b = true ↔
      (DEFAULT_SIMILARITY_THRESHOLD : ℚ) < cosine_similarity a b := by
  obtain ⟨hd1, hd2, hpos⟩ := cosine_similarity_parts_nonneg a b
  rw [is_similar, decide_eq_true_iff]
  rw [cosine_similarity]
  rcases eq_or_lt_of_le (mul_nonneg hd1 hd2) with hz | hp
  · constructor
    · rintro ⟨hs, _⟩
      obtain ⟨h1, h2⟩ := hpos (ne_of_gt hs)
      nlinarith
    · intro hlt
      exfalso
      have hD : ((cosine_similarity_parts a b).2.1 : ℝ) *
          ((cosine_similarity_parts a b).2.2 : ℝ) = 0 := by
        push_cast [← Rat.cast_mul]
        exact_mod_cast hz.symm
      rw [hD, Real.sqrt_zero, div_zero] at hlt
      have : ((DEFAULT_SIMILARITY_THRESHOLD : ℚ) : ℝ) = 7/10 := by
        norm_num [DEFAULT_SIMILARITY_THRESHOLD]
      rw [this] at hlt
      norm_num at hlt
  · have hDpos : (0:ℝ) < ((cosine_similarity_parts a b).2.1 : ℝ) *
        ((cosine_similarity_parts a b).2.2 : ℝ) := by
      have := hp
      push_cast [← Rat.cast_mul]
      exact_mod_cast this
    have hr : (0:ℝ) < Real.sqrt (((cosine_similarity_parts a b).2.1 : ℝ) *
        ((cosine_similarity_parts a b).2.2 : ℝ)) := Real.sqrt_pos.mpr hDpos
    have hr2 : (Real.sqrt (((cosine_similarity_parts a b).2.1 : ℝ) *
        ((cosine_similarity_parts a b).2.2 : ℝ)))^2 =
        ((cosine_similarity_parts a b).2.1 : ℝ) *
          ((cosine_similarity_parts a b).2.2 : ℝ) :=
      Real.sq_sqrt (le_of_lt hDpos)
    rw [lt_div_iff₀ hr]
    set r := Real.sqrt (((cosine_similarity_parts a b).2.1 : ℝ) *
      ((cosine_similarity_parts a b).2.2 : ℝ))
    constructor
    · rintro ⟨hs, hsq⟩
      have hs' : (0:ℝ) < ((cosine_similarity_parts a b).1 : ℝ) := by
        exact_mod_cast hs
      have hsq' : ((DEFAULT_SIMILARITY_THRESHOLD : ℚ) : ℝ)^2 *
          (((cosine_similarity_parts a b).2.1 : ℝ) *
            ((cosine_similarity_parts a b).2.2 : ℝ)) <
          ((cosine_similarity_parts a b).1 : ℝ)^2 := by
        exact_mod_cast hsq
      rw [← hr2] at hsq'
      have ht : (0:ℝ) < ((DEFAULT_SIMILARITY_THRESHOLD : ℚ) : ℝ) := by
        norm_num [DEFAULT_SIMILARITY_THRESHOLD]
      nlinarith
    · intro hlt
      have ht : (0:ℝ) < ((DEFAULT_SIMILARITY_THRESHOLD : ℚ) : ℝ) := by
        norm_num [DEFAULT_SIMILARITY_THRESHOLD]
      have hs' : (0:ℝ) < ((cosine_similarity_parts a b).1 : ℝ) := by
        nlinarith
      have hs : 0 < (cosine_similarity_parts a b).1 := by exact_mod_cast hs'
      refine ⟨hs, ?_⟩
      have hsq' : ((DEFAULT_SIMILARITY_THRESHOLD : ℚ) : ℝ)^2 * (r^2) <
          ((cosine_similarity_parts a b).1 : ℝ)^2 := by
        nlinarith [mul_pos ht hr,
          mul_self_lt_mul_self
            (by positivity : (0:ℝ) ≤ ((DEFAULT_SIMILARITY_THRESHOLD : ℚ) : ℝ) * r) hlt]
      rw [hr2] at hsq'
      have : ((DEFAULT_SIMILARITY_THRESHOLD^2 *
          ((cosine_similarity_parts a b).2.1 * (cosine_similarity_parts a b).2.2) : ℚ) : ℝ) <
          (((cosine_similarity_parts a b).1^2 : ℚ) : ℝ) := by
        push_cast
        exact hsq'
      exact_mod_cast this

/-- Along the diagonal of `cosine_similarity a a` every step matches the
current peak with itself, so each accumulator gains the tail sum of squared
intensities. -/
theorem cosine_similarity_loop_diag (a : Spectrum) : ∀ fuel i (s d e : ℚ),
    a.num_peaks - i ≤ fuel →
    cosine_similarity_loop a a fuel i i s d e =
      (s + tail_sq a i, d + tail_sq a i, e + tail_sq a i) := by
  intro fuel
  induction fuel with
  | zero =>
    intro i s d e h
    have ht : tail_sq a i = 0 := by
      rw [tail_sq, Finset.Ico_eq_empty (by omega), Finset.sum_empty]
    rw [cosine_similarity_loop_zero, ht]
    simp
  | succ f ih =>
    intro i s d e h
    rw [cosine_similarity_loop_succ]
    by_cases hi : i < a.num_peaks
    · rw [if_pos ⟨hi, hi⟩, if_pos (is_identical_peak_self _),
        ih (i+1) _ _ _ (by omega)]
      have hs : tail_sq a i = (a.intensities.getD i 0)^2 + tail_sq a (i+1) := by
        rw [tail_sq, tail_sq, Finset.sum_eq_sum_Ico_succ_bot hi]
      rw [hs]
      simp only [Prod.mk.injEq]
      refine ⟨by ring, by ring, by ring⟩
    · rw [if_neg (fun hc => hi hc.1)]
      have ht : tail_sq a i = 0 := by
        rw [tail_sq, Finset.Ico_eq_empty (by omega), Finset.sum_empty]
      rw [ht]
      simp

/-- The accumulators of `cosine_similarity a a` are all the sum of the
squared intensities. -/
theorem cosine_similarity_parts_self (a : Spectrum) :
    cosine_similarity_parts a a = (tail_sq a 0, tail_sq a 0, tail_sq a 0) := by
  rw [cosine_similarity_parts, cosine_similarity_loop_diag a _ 0 0 0 0 (by omega)]
  simp

/-- C6: for every non-empty spectrum `a` (peaks sorted non-decreasing,
intensities not all zero among the first `num_peaks` entries, aligned
lengths), `cosine_similarity a a = 1`: every peak matches itself within the
0.02 tolerance, so the numerator equals each of the two sums of squares. -/
theorem c6_self_similarity (a : Spectrum)
    (_hlen : a.intensities.length = a.peaks.length)
    (_hne : 1 ≤ a.num_peaks)
    (_hsorted : a.peaks.Sorted (· ≤ ·))
    (hnz : ∃ m, m < a.num_peaks ∧ a.intensities.getD m 0 ≠ 0) :
    cosine_similarity a a = 1 := by
  have hS : 0 < tail_sq a 0 := by
    rw [tail_sq]
    apply Finset.sum_pos'
    · intro m _
      positivity
    · obtain ⟨m, hm, hz⟩ := hnz
      exact ⟨m, Finset.mem_Ico.mpr ⟨Nat.zero_le m, hm⟩, by positivity⟩
  rw [cosine_similarity, cosine_similarity_parts_self]
  have hSR : (0:ℝ) < ((tail_sq a 0 : ℚ) : ℝ) := by exact_mod_cast hS
  show ((tail_sq a 0 : ℚ) : ℝ) /
    Real.sqrt (((tail_sq a 0 : ℚ) : ℝ) * ((tail_sq a 0 : ℚ) : ℝ)) = 1
  rw [Real.sqrt_mul_self (le_of_lt hSR)]
  exact div_self (ne_of_gt hSR)

/-- C6 witness: the one-peak spectrum with intensity 1 satisfies every
hypothesis and has self-similarity 1. -/
theorem c6_self_similarity_witness :
    (exOne.intensities.length = exOne.peaks.length ∧ 1 ≤ exOne.num_peaks ∧
      exOne.peaks.Sorted (· ≤ ·) ∧
      ∃ m, m < exOne.num_peaks ∧ exOne.intensities.getD m 0 ≠ 0) ∧
    cosine_similarity exOne exOne = 1 :=
  ⟨⟨rfl, by decide, by simp [exOne], ⟨0, by decide, by decide⟩⟩,
    c6_self_similarity exOne rfl (by decide) (by simp [exOne])
      ⟨0, by decide, by decide⟩⟩

/-- C9: when both accumulated sums of squares are zero the score is zero as
well, so the source computes the indeterminate `0 / sqrt 0` (`NaN` in
floating point, junk-value `0/0` in this model), and `is_similar` is false:
the degenerate case is never reported as a match. -/
theorem c9_degenerate_similarity (a b : Spectrum)
    (hda : (cosine_similarity_parts a b).2.1 = 0)
    (hdb : (cosine_similarity_parts a b).2.2 = 0) :
    is_similar a b = false ∧ (cosine_similarity_parts a b).1 = 0 ∧
      Real.sqrt (((cosine_similarity_parts a b).2.1 : ℝ) *
        ((cosine_similarity_parts a b).2.2 : ℝ)) = 0 := by
  obtain ⟨_, _, hp⟩ := cosine_similarity_parts_nonneg a b
  have hs : (cosine_similarity_parts a b).1 = 0 := by
    by_contra hne
    obtain ⟨hlt, _⟩ := hp hne
    rw [hda] at hlt
    exact lt_irrefl 0 hlt
  refine ⟨?_, hs, ?_⟩
  · rw [is_similar, decide_eq_false_iff_not]
    rintro ⟨hpos, _⟩
    rw [hs] at hpos
    exact lt_irrefl 0 hpos
  · rw [hda, hdb]
    norm_num

/-- C9 witness: two empty spectra have zero sums of squares and are not
similar. -/
theorem c9_degenerate_similarity_witness :
    ((cosine_similarity_parts default default).2.1 = 0 ∧
      (cosine_similarity_parts default default).2.2 = 0) ∧
    is_similar default default = false :=
  ⟨⟨by decide, by decide⟩,
    (c9_degenerate_similarity default default (by decide) (by decide)).1⟩

/-- C10: the three merge-walk branch guards are exhaustive over totally
ordered peak values, every iteration advances a cursor, and the loop
terminates in at most `num_peaks a + num_peaks b` iterations: its result is
already stable at that fuel. -/
theorem c10_merge_walk_termination (a b : Spectrum) (x y : ℚ) :
    (is_identical_peak x y = false → x < y ∨ y < x) ∧
    cosine_similarity_steps a b (a.num_peaks + b.num_peaks) 0 0 ≤
      a.num_peaks + b.num_peaks ∧
    (∀ extra : ℕ,
      cosine_similarity_loop a b (a.num_peaks + b.num_peaks + extra) 0 0 0 0 0 =
        cosine_similarity_parts a b) := by
  refine ⟨is_identical_peak_false_lt, ?_, ?_⟩
  · have := cosine_similarity_steps_le a b (a.num_peaks + b.num_peaks) 0 0
    omega
  · intro extra
    exact cosine_similarity_loop_fuel_free a b extra _ 0 0 0 0 0 (by omega)

/-- C10 witness: instantiated at the scenario-A spectra and the peak pair
(0, 1), whose identity test fails and which is strictly ordered. -/
theorem c10_merge_walk_termination_witness :
    is_identical_peak 0 1 = false ∧ ((0:ℚ) < 1 ∨ (1:ℚ) < 0) :=
  ⟨by decide, (c10_merge_walk_termination exA0 exA1 0 1).1 (by decide)⟩

/-- C1: on the three scenario-A spectra, the heuristic driver started from
the identity array yields representatives `[0, 0, 2]`, whose number of
distinct values is 2, and `cosine_similarity S0 S1 = 1`. -/
theorem c1_end_to_end :
    cluster_spectra (initialize_cluster 3) [exA0, exA1, exA2] = [0, 0, 2] ∧
    count_clusters (cluster_spectra (initialize_cluster 3) [exA0, exA1, exA2]) = 2 ∧
    cosine_similarity exA0 exA1 = 1 := by
  refine ⟨by decide, by decide, ?_⟩
  have hp : cosine_similarity_parts exA0 exA1 = (3, 3, 3) := by decide
  rw [cosine_similarity, hp]
  show ((3:ℚ):ℝ) / Real.sqrt (((3:ℚ):ℝ) * ((3:ℚ):ℝ)) = 1
  rw [Real.sqrt_mul_self (by norm_num)]
  norm_num

/-- C7 counterexample: at the negative peak value `-0.01` the source
truncates toward zero (`((int) -1 / 2) * 2 = 0`, key "0.00") while the claim's
round-DOWN-to-even computation gives `-2` (key "-0.02"). -/
theorem c7_bucket_key_counterexample :
    get_peak_bucket (-1/100) = "0.00" ∧ spec_peak_bucket (-1/100) = "-0.02" ∧
    get_peak_bucket (-1/100) ≠ spec_peak_bucket (-1/100) :=
  ⟨by decide, by decide, by decide⟩

/-- C7 amended: for every nonnegative peak value the source's
truncating-toward-zero division agrees with the claim's rounding-down, so
`get_peak_bucket` computes floor of `p * 100`, rounded down to the nearest
even value, formatted with two decimals. -/
theorem c7_bucket_key_amended (p : ℚ) (hp : 0 ≤ p) :
    get_peak_bucket p = spec_peak_bucket p := by
  rw [get_peak_bucket, spec_peak_bucket]
  have h0 : 0 ≤ ⌊p * 100⌋ := Int.floor_nonneg.mpr (by positivity)
  rw [Int.fdiv_eq_tdiv h0 (by norm_num)]

/-- C7 witness: at the spec's own example 50.01 both computations give
"50.00". -/
theorem c7_bucket_key_amended_witness :
    (0:ℚ) ≤ 5001/100 ∧ get_peak_bucket (5001/100) = spec_peak_bucket (5001/100) :=
  ⟨by norm_num, c7_bucket_key_amended (5001/100) (by norm_num)⟩

/-- C8 counterexample: registering the spectrum with peaks 100.00 and 100.01
(both in bucket "100.00") appends index 0 twice to that bucket list, so the
bucket index does not store duplicate-free sets. -/
theorem c8_bucket_duplicate_counterexample :
    (cluster_run (initialize_cluster 1) [exDup] 1).2 "100.00" = [0, 0] ∧
    ¬ List.Nodup ((cluster_run (initialize_cluster 1) [exDup] 1).2 "100.00") :=
  ⟨by decide, by decide⟩

theorem getD_set_self {l : List ℕ} {i : ℕ} (h : i < l.length) (v : ℕ) :
    (l.set i v).getD i 0 = v := by
  rw [List.getD_eq_getElem?_getD, List.getElem?_set_self h]
  rfl

theorem getD_set_ne {l : List ℕ} {i j : ℕ} (h : i ≠ j) (v : ℕ) :
    (l.set i v).getD j 0 = l.getD j 0 := by
  rw [List.getD_eq_getElem?_getD, List.getElem?_set_ne h,
    ← List.getD_eq_getElem?_getD]

theorem getD_range {j n : ℕ} (h : j < n) : (List.range n).getD j 0 = j := by
  rw [List.getD_eq_getElem?_getD, List.getElem?_range h]
  rfl

theorem setInsert_mem (x z : ℕ) : ∀ l : List ℕ,
    (z ∈ setInsert l x ↔ z = x ∨ z ∈ l) := by
  intro l
  induction l with
  | nil => simp [setInsert]
  | cons y ys ih =>
    rw [setInsert]
    by_cases hlt : x < y
    · rw [if_pos hlt]
      simp
    · rw [if_neg hlt]
      by_cases heq : x = y
      · rw [if_pos heq]
        subst heq
        simp [or_comm, or_assoc, eq_comm]
      · rw [if_neg heq]
        simp only [List.mem_cons, ih]
        tauto

theorem setInsert_sorted (x : ℕ) : ∀ l : List ℕ,
    List.Sorted (· < ·) l → List.Sorted (· < ·) (setInsert l x) := by
  intro l
  induction l with
  | nil =>
    intro _
    simp [setInsert]
  | cons y ys ih =>
    intro hs
    rw [List.sorted_cons] at hs
    obtain ⟨hy, hys⟩ := hs
    rw [setInsert]
    by_cases hlt : x < y
    · rw [if_pos hlt, List.sorted_cons]
      refine ⟨?_, List.sorted_cons.mpr ⟨hy, hys⟩⟩
      intro b hb
      rcases List.mem_cons.mp hb with hb | hb
      · omega
      · have := hy b hb
        omega
    · rw [if_neg hlt]
      by_cases heq : x = y
      · rw [if_pos heq, List.sorted_cons]
        exact ⟨hy, hys⟩
      · rw [if_neg heq, List.sorted_cons]
        refine ⟨?_, ih hys⟩
        intro b hb
        rcases (setInsert_mem x b ys).mp hb with hb | hb
        · omega
        · exact hy b hb

theorem setSort_core_sorted (l : List ℕ) : ∀ acc : List ℕ,
    List.Sorted (· < ·) acc → List.Sorted (· < ·) (l.foldl setInsert acc) := by
  induction l with
  | nil => intro acc h; exact h
  | cons y ys ih =>
    intro acc h
    exact ih (setInsert acc y) (setInsert_sorted y acc h)

theorem setSort_sorted (l : List ℕ) : List.Sorted (· < ·) (setSort l) :=
  setSort_core_sorted l [] List.sorted_nil

theorem setSort_core_mem (z : ℕ) : ∀ (l acc : List ℕ),
    (z ∈ l.foldl setInsert acc ↔ z ∈ acc ∨ z ∈ l) := by
  intro l
  induction l with
  | nil => simp
  | cons y ys ih =>
    intro acc
    rw [List.foldl_cons, ih, setInsert_mem]
    simp only [List.mem_cons]
    tauto

theorem setSort_mem (z : ℕ) (l : List ℕ) : z ∈ setSort l ↔ z ∈ l := by
  rw [setSort, setSort_core_mem]
  simp

theorem foldl_append_mem {α : Type} (g : ℕ → List α) (z : α) : ∀ (l : List ℕ)
    (acc : List α),
    (z ∈ l.foldl (fun cs i => cs ++ g i) acc ↔ z ∈ acc ∨ ∃ i ∈ l, z ∈ g i) := by
  intro l
  induction l with
  | nil => simp
  | cons y ys ih =>
    intro acc
    rw [List.foldl_cons, ih]
    simp only [List.mem_append, List.mem_cons]
    constructor
    · rintro (⟨hz | hz⟩ | ⟨i, hi, hz⟩)
      · exact Or.inl hz
      · exact Or.inr ⟨y, Or.inl rfl, hz⟩
      · exact Or.inr ⟨i, Or.inr hi, hz⟩
    · rintro (hz | ⟨i, (rfl | hi), hz⟩)
      · exact Or.inl (Or.inl hz)
      · exact Or.inl (Or.inr hz)
      · exact Or.inr ⟨i, hi, hz⟩

theorem get_common_peak_candidates_mem {c : ℕ} {s : Spectrum}
    {pb : String → List ℕ} (h : c ∈ get_common_peak_candidates s pb) :
    ∃ i ∈ List.range (min 5 s.num_peaks),
      c ∈ pb (get_peak_bucket (s.peaks.getD i 0)) := by
  rw [get_common_peak_candidates, setSort_mem, foldl_append_mem] at h
  rcases h with h | h
  · cases h
  · exact h

theorem get_common_peak_candidates_sorted (s : Spectrum)
    (pb : String → List ℕ) :
    List.Sorted (· < ·) (get_common_peak_candidates s pb) :=
  setSort_sorted _

theorem find_candidate_eq_find? (s : Spectrum) (spectra : List Spectrum) :
    ∀ l : List ℕ,
    find_candidate s spectra l = l.find? (accepts_candidate s spectra) := by
  intro l
  induction l with
  | nil => rfl
  | cons c cs ih =>
    rw [find_candidate, List.find?_cons]
    by_cases hc : accepts_candidate s spectra c
    · rw [if_pos hc, hc]
    · rw [if_neg hc, Bool.not_eq_true] at *
      rw [hc, ih]

theorem find_candidate_some {s : Spectrum} {spectra : List Spectrum}
    {l : List ℕ} {c : ℕ} (h : find_candidate s spectra l = some c) :
    c ∈ l ∧ accepts_candidate s spectra c = true := by
  rw [find_candidate_eq_find?] at h
  exact ⟨List.mem_of_find?_eq_some h, List.find?_some h⟩

theorem bucketAppend_mem {pb : String → List ℕ} {key k : String} {idx z : ℕ}
    (h : z ∈ bucketAppend pb key idx k) : z ∈ pb k ∨ z = idx := by
  rw [bucketAppend] at h
  by_cases hk : k = key
  · rw [if_pos hk] at h
    rcases List.mem_append.mp h with h | h
    · exact Or.inl h
    · right
      simpa using h
  · rw [if_neg hk] at h
    exact Or.inl h

theorem bucket_register_fold_mem {idx z : ℕ} {k : String} (g : ℕ → String) :
    ∀ (l : List ℕ) (pb : String → List ℕ),
    z ∈ (l.foldl (fun pb i => bucketAppend pb (g i) idx) pb) k →
      z ∈ pb k ∨ z = idx := by
  intro l
  induction l with
  | nil => intro pb h; exact Or.inl h
  | cons y ys ih =>
    intro pb h
    rw [List.foldl_cons] at h
    rcases ih (bucketAppend pb (g y) idx) h with h' | h'
    · exact bucketAppend_mem h'
    · exact Or.inr h'

theorem bucket_spectrum_peaks_mem {pb : String → List ℕ} {s : Spectrum}
    {idx z : ℕ} {k : String} (h : z ∈ bucket_spectrum_peaks pb s idx k) :
    z ∈ pb k ∨ z = idx :=
  bucket_register_fold_mem _ _ pb h

theorem bucket_register_fold_sorted {idx : ℕ} (g : ℕ → String) :
    ∀ (l : List ℕ) (pb : String → List ℕ),
    (∀ key, List.Sorted (· ≤ ·) (pb key) ∧ ∀ z ∈ pb key, z ≤ idx) →
    ∀ key, List.Sorted (· ≤ ·)
        ((l.foldl (fun pb i => bucketAppend pb (g i) idx) pb) key) ∧
      ∀ z ∈ (l.foldl (fun pb i => bucketAppend pb (g i) idx) pb) key, z ≤ idx := by
  intro l
  induction l with
  | nil => intro pb h; exact h
  | cons y ys ih =>
    intro pb h
    rw [List.foldl_cons]
    refine ih (bucketAppend pb (g y) idx) ?_
    intro key
    obtain ⟨hsor, hle⟩ := h key
    rw [bucketAppend]
    by_cases hk : key = g y
    · rw [if_pos hk]
      constructor
      · rw [List.Sorted, List.pairwise_append]
        refine ⟨hsor, List.pairwise_singleton _ _, ?_⟩
        intro a ha b hb
        have := hle a ha
        have : b = idx := by simpa using hb
        omega
      · intro z hz
        rcases List.mem_append.mp hz with hz | hz
        · exact hle z hz
        · have : z = idx := by simpa using hz
          omega
    · rw [if_neg hk]
      exact ⟨hsor, hle⟩

theorem bucket_spectrum_peaks_sorted {pb : String → List ℕ} {s : Spectrum}
    {idx : ℕ}
    (h : ∀ key, List.Sorted (· ≤ ·) (pb key) ∧ ∀ z ∈ pb key, z ≤ idx) :
    ∀ key, List.Sorted (· ≤ ·) (bucket_spectrum_peaks pb s idx key) ∧
      ∀ z ∈ bucket_spectrum_peaks pb s idx key, z ≤ idx :=
  bucket_register_fold_sorted _ _ pb h

theorem cluster_run_zero (clusters : List ℕ) (spectra : List Spectrum) :
    cluster_run clusters spectra 0 = (clusters, fun _ => []) := rfl

theorem cluster_run_succ (clusters : List ℕ) (spectra : List Spectrum) (k : ℕ) :
    cluster_run clusters spectra (k+1) =
      cluster_step spectra (cluster_run clusters spectra k) k := by
  rw [cluster_run, cluster_run, List.range_succ, List.foldl_append,
    List.foldl_cons, List.foldl_nil]

/-- One step of the heuristic driver preserves its invariant. -/
theorem hinv_step {spectra : List Spectrum} {k : ℕ}
    {st : List ℕ × (String → List ℕ)}
    (hk : k < spectra.length) (h : HInv spectra k st) :
    HInv spectra (k+1) (cluster_step spectra st k) := by
  obtain ⟨hlen, hid, hproc, hbuck⟩ := h
  rw [cluster_step]
  cases hfind : find_candidate (spectra.getD k default) spectra
      (get_common_peak_candidates (spectra.getD k default) st.2) with
  | some c =>
    obtain ⟨hcmem, hacc⟩ := find_candidate_some hfind
    obtain ⟨i0, _, hck⟩ := get_common_peak_candidates_mem hcmem
    obtain ⟨hck', hcn, hcroot⟩ := (hbuck _).1 c hck
    rw [accepts_candidate, Bool.and_eq_true] at hacc
    obtain ⟨hpep, hsim⟩ := hacc
    refine ⟨?_, ?_, ?_, ?_⟩
    · simpa using hlen
    · intro j hj hjn
      rw [getD_set_ne (by omega : k ≠ j)]
      exact hid j (by omega) hjn
    · intro j hj hjn
      by_cases hjk : j = k
      · subst hjk
        have hset : (st.1.set j c).getD j 0 = c :=
          getD_set_self (by omega) c
        rw [hset]
        refine ⟨by omega, ?_, fun _ => ⟨hpep, hsim⟩⟩
        rw [getD_set_ne (by omega : j ≠ c)]
        exact hcroot
      · have hjlt : j < k := by omega
        obtain ⟨h1, h2, h3⟩ := hproc j hjlt hjn
        have e1 : (st.1.set k c).getD j 0 = st.1.getD j 0 :=
          getD_set_ne (by omega) c
        have e2 : (st.1.set k c).getD (st.1.getD j 0) 0 =
            st.1.getD (st.1.getD j 0) 0 :=
          getD_set_ne (by omega) c
        rw [e1, e2]
        exact ⟨h1, h2, h3⟩
    · intro key
      refine ⟨?_, (hbuck key).2⟩
      intro c' hc'
      obtain ⟨g1, g2, g3⟩ := (hbuck key).1 c' hc'
      refine ⟨by omega, g2, ?_⟩
      rw [getD_set_ne (by omega : k ≠ c')]
      exact g3
  | none =>
    have hkk : st.1.getD k 0 = k := hid k le_rfl hk
    refine ⟨hlen, ?_, ?_, ?_⟩
    · intro j hj hjn
      exact hid j (by omega) hjn
    · intro j hj hjn
      by_cases hjk : j = k
      · subst hjk
        rw [hkk]
        exact ⟨le_rfl, hkk, fun hne => absurd rfl hne⟩
      · exact hproc j (by omega) hjn
    · intro key
      constructor
      · intro c' hc'
        rcases bucket_spectrum_peaks_mem hc' with hold | rfl
        · obtain ⟨g1, g2, g3⟩ := (hbuck key).1 c' hold
          exact ⟨by omega, g2, g3⟩
        · exact ⟨by omega, hk, hkk⟩
      · refine (bucket_spectrum_peaks_sorted ?_ key).1
        intro key'
        refine ⟨(hbuck key').2, ?_⟩
        intro z hz
        have := ((hbuck key').1 z hz).1
        omega

/-- The heuristic driver's invariant holds after any prefix of the run. -/
theorem cluster_run_hinv (spectra : List Spectrum) : ∀ k, k ≤ spectra.length →
    HInv spectra k (cluster_run (initialize_cluster spectra.length) spectra k) := by
  intro k
  induction k with
  | zero =>
    intro _
    rw [cluster_run_zero]
    refine ⟨?_, ?_, ?_, ?_⟩
    · simp [initialize_cluster]
    · intro j _ hj
      exact getD_range hj
    · intro j hj _
      omega
    · intro key
      exact ⟨fun c hc => absurd hc (List.not_mem_nil c), List.sorted_nil⟩
  | succ k ih =>
    intro hk
    rw [cluster_run_succ]
    exact hinv_step (by omega) (ih (by omega))

/-- Steps after `i` never touch entry `i` of the heuristic clusters array:
each entry is written at most once. -/
theorem cluster_run_getD_stable (clusters : List ℕ) (spectra : List Spectrum)
    (i : ℕ) : ∀ d,
    (cluster_run clusters spectra (i+1+d)).1.getD i 0 =
      (cluster_run clusters spectra (i+1)).1.getD i 0 := by
  intro d
  induction d with
  | zero => rfl
  | succ d ih =>
    have h1 : i+1+(d+1) = (i+1+d)+1 := by omega
    rw [h1, cluster_run_succ, cluster_step]
    cases hfind : find_candidate (spectra.getD (i+1+d) default) spectra
        (get_common_peak_candidates (spectra.getD (i+1+d) default)
          (cluster_run clusters spectra (i+1+d)).2) with
    | some c =>
      show ((cluster_run clusters spectra (i+1+d)).1.set (i+1+d) c).getD i 0 = _
      rw [getD_set_ne (by omega : i+1+d ≠ i)]
      exact ih
    | none => exact ih

/-- The final heuristic entry at `i` is the value written by step `i`. -/
theorem cluster_spectra_getD (spectra : List Spectrum) (i : ℕ)
    (hi : i < spectra.length) :
    (cluster_spectra (initialize_cluster spectra.length) spectra).getD i 0 =
      (cluster_run (initialize_cluster spectra.length) spectra (i+1)).1.getD i 0 := by
  rw [cluster_spectra]
  have h := cluster_run_getD_stable (initialize_cluster spectra.length) spectra i
    (spectra.length - i - 1)
  rw [show i+1+(spectra.length-i-1) = spectra.length from by omega] at h
  exact h

theorem naive_run_zero (clusters : List ℕ) (spectra : List Spectrum) :
    naive_run clusters spectra 0 = clusters := rfl

theorem naive_run_one (clusters : List ℕ) (spectra : List Spectrum) :
    naive_run clusters spectra 1 = clusters := rfl

theorem naive_run_succ (clusters : List ℕ) (spectra : List Spectrum) {k : ℕ}
    (hk : 1 ≤ k) :
    naive_run clusters spectra (k+1) =
      naive_step spectra (naive_run clusters spectra k) k := by
  rw [naive_run, naive_run, List.range_succ,
    List.drop_append_of_le_length (by simpa using hk),
    List.foldl_append, List.foldl_cons, List.foldl_nil]

/-- A successful naive inner scan returns the current representative of some
earlier index, and that candidate passed the acceptance test. -/
theorem naive_inner_some {spectra : List Spectrum} {s : Spectrum}
    {cl : List ℕ} : ∀ (js seen : List ℕ) {c : ℕ},
    naive_inner spectra s cl seen js = some c →
    (∃ j ∈ js, cl.getD j 0 = c) ∧ accepts_candidate s spectra c = true := by
  intro js
  induction js with
  | nil =>
    intro seen c h
    cases h
  | cons j js ih =>
    intro seen c h
    simp only [naive_inner] at h
    by_cases hseen : cl.getD j 0 ∈ seen
    · rw [if_pos hseen] at h
      obtain ⟨⟨j', hj', hc⟩, hacc⟩ := ih seen h
      exact ⟨⟨j', List.mem_cons_of_mem _ hj', hc⟩, hacc⟩
    · rw [if_neg hseen] at h
      by_cases hacc : accepts_candidate s spectra (cl.getD j 0)
      · rw [if_pos hacc] at h
        obtain rfl : cl.getD j 0 = c := Option.some_inj.mp h
        exact ⟨⟨j, List.mem_cons_self j js, rfl⟩, hacc⟩
      · rw [if_neg hacc] at h
        obtain ⟨⟨j', hj', hc⟩, ha⟩ := ih _ h
        exact ⟨⟨j', List.mem_cons_of_mem _ hj', hc⟩, ha⟩

/-- Skipping already-seen (hence already-rejected) candidates does not change
the first accepted candidate: the naive inner scan computes `find?` over the
sequence of current representatives of the earlier indices. -/
theorem naive_inner_eq_find? {spectra : List Spectrum} {s : Spectrum}
    {cl : List ℕ} : ∀ (js seen : List ℕ),
    (∀ c ∈ seen, accepts_candidate s spectra c = false) →
    naive_inner spectra s cl seen js =
      (js.map fun j => cl.getD j 0).find? (accepts_candidate s spectra) := by
  intro js
  induction js with
  | nil =>
    intro seen _
    rfl
  | cons j js ih =>
    intro seen h
    rw [List.map_cons, List.find?_cons]
    simp only [naive_inner]
    by_cases hseen : cl.getD j 0 ∈ seen
    · rw [if_pos hseen]
      have hf : accepts_candidate s spectra (cl.getD j 0) = false := h _ hseen
      rw [hf]
      exact ih seen h
    · rw [if_neg hseen]
      by_cases hacc : accepts_candidate s spectra (cl.getD j 0)
      · rw [if_pos hacc, hacc]
      · have hf : accepts_candidate s spectra (cl.getD j 0) = false :=
          Bool.eq_false_iff.mpr hacc
        rw [if_neg hacc, hf]
        refine ih _ ?_
        intro c hc
        rcases List.mem_cons.mp hc with rfl | hc
        · exact hf
        · exact h c hc

/-- One step of the naive driver preserves its invariant. -/
theorem ninv_step {spectra : List Spectrum} {k : ℕ} {cl : List ℕ}
    (hk : k < spectra.length) (h : NInv spectra k cl) :
    NInv spectra (k+1) (naive_step spectra cl k) := by
  obtain ⟨hlen, hid, hproc⟩ := h
  rw [naive_step]
  cases hinner : naive_inner spectra (spectra.getD k default) cl []
      (List.range k) with
  | none =>
    have hkk : cl.getD k 0 = k := hid k le_rfl hk
    refine ⟨hlen, ?_, ?_⟩
    · intro j hj hjn
      exact hid j (by omega) hjn
    · intro j hj hjn
      by_cases hjk : j = k
      · subst hjk
        rw [hkk]
        exact ⟨le_rfl, hkk, fun hne => absurd rfl hne⟩
      · exact hproc j (by omega) hjn
  | some c =>
    obtain ⟨⟨j0, hj0, hj0c⟩, hacc⟩ := naive_inner_some _ _ hinner
    have hj0k : j0 < k := List.mem_range.mp hj0
    obtain ⟨hle0, hroot0, _⟩ := hproc j0 hj0k (by omega)
    have hck : c ≤ j0 := hj0c ▸ hle0
    have hcroot : cl.getD c 0 = c := by
      rw [← hj0c]
      exact hroot0
    rw [accepts_candidate, Bool.and_eq_true] at hacc
    obtain ⟨hpep, hsim⟩ := hacc
    refine ⟨?_, ?_, ?_⟩
    · simpa using hlen
    · intro j hj hjn
      rw [getD_set_ne (by omega : k ≠ j)]
      exact hid j (by omega) hjn
    · intro j hj hjn
      by_cases hjk : j = k
      · subst hjk
        have hset : (cl.set j c).getD j 0 = c := getD_set_self (by omega) c
        rw [hset]
        refine ⟨by omega, ?_, fun _ => ⟨hpep, hsim⟩⟩
        rw [getD_set_ne (by omega : j ≠ c)]
        exact hcroot
      · have hjlt : j < k := by omega
        obtain ⟨h1, h2, h3⟩ := hproc j hjlt hjn
        have e1 : (cl.set k c).getD j 0 = cl.getD j 0 :=
          getD_set_ne (by omega) c
        have e2 : (cl.set k c).getD (cl.getD j 0) 0 =
            cl.getD (cl.getD j 0) 0 :=
          getD_set_ne (by omega) c
        rw [e1, e2]
        exact ⟨h1, h2, h3⟩

/-- The naive driver's invariant holds after any prefix of the run. -/
theorem naive_run_ninv (spectra : List Spectrum) : ∀ k, k ≤ spectra.length →
    NInv spectra k (naive_run (initialize_cluster spectra.length) spectra k) := by
  intro k
  induction k with
  | zero =>
    intro _
    rw [naive_run_zero]
    refine ⟨?_, ?_, ?_⟩
    · simp [initialize_cluster]
    · intro j _ hj
      exact getD_range hj
    · intro j hj _
      omega
  | succ k ih =>
    intro hk
    by_cases hk1 : 1 ≤ k
    · rw [naive_run_succ _ _ hk1]
      exact ninv_step (by omega) (ih (by omega))
    · have hk0 : k = 0 := by omega
      subst hk0
      rw [naive_run_one]
      have h0 : ∀ j, j < spectra.length →
          (initialize_cluster spectra.length).getD j 0 = j :=
        fun j hj => getD_range hj
      refine ⟨?_, ?_, ?_⟩
      · simp [initialize_cluster]
      · intro j _ hj
        exact h0 j hj
      · intro j hj hjn
        have hj0 : j = 0 := by omega
        subst hj0
        rw [h0 0 hjn]
        exact ⟨le_rfl, h0 0 hjn, fun hne => absurd rfl hne⟩

/-- Steps after `i` never touch entry `i` of the naive clusters array. -/
theorem naive_run_getD_stable (clusters : List ℕ) (spectra : List Spectrum)
    (i : ℕ) : ∀ d,
    (naive_run clusters spectra (i+1+d)).getD i 0 =
      (naive_run clusters spectra (i+1)).getD i 0 := by
  intro d
  induction d with
  | zero => rfl
  | succ d ih =>
    have h1 : i+1+(d+1) = (i+1+d)+1 := by omega
    rw [h1, naive_run_succ clusters spectra (by omega : 1 ≤ i+1+d), naive_step]
    cases hinner : naive_inner spectra (spectra.getD (i+1+d) default)
        (naive_run clusters spectra (i+1+d)) [] (List.range (i+1+d)) with
    | some c =>
      show ((naive_run clusters spectra (i+1+d)).set (i+1+d) c).getD i 0 = _
      rw [getD_set_ne (by omega : i+1+d ≠ i)]
      exact ih
    | none => exact ih

/-- The final naive entry at `i` is the value written by step `i`. -/
theorem naive_cluster_spectra_getD (spectra : List Spectrum) (i : ℕ)
    (hi : i < spectra.length) :
    (naive_cluster_spectra (initialize_cluster spectra.length) spectra).getD i 0 =
      (naive_run (initialize_cluster spectra.length) spectra (i+1)).getD i 0 := by
  rw [naive_cluster_spectra]
  have h := naive_run_getD_stable (initialize_cluster spectra.length) spectra i
    (spectra.length - i - 1)
  rw [show i+1+(spectra.length-i-1) = spectra.length from by omega] at h
  exact h

/-- C3: after either driver runs on the identity-initialized array, every
entry points to an earlier-or-equal index that is itself a root
(`r[r[i]] = r[i]`). -/
theorem c3_representatives_are_roots (spectra : List Spectrum) (i : ℕ)
    (hi : i < spectra.length) :
    ((cluster_spectra (initialize_cluster spectra.length) spectra).getD i 0 ≤ i ∧
      (cluster_spectra (initialize_cluster spectra.length) spectra).getD
        ((cluster_spectra (initialize_cluster spectra.length) spectra).getD i 0) 0 =
        (cluster_spectra (initialize_cluster spectra.length) spectra).getD i 0) ∧
    ((naive_cluster_spectra (initialize_cluster spectra.length) spectra).getD i 0 ≤ i ∧
      (naive_cluster_spectra (initialize_cluster spectra.length) spectra).getD
        ((naive_cluster_spectra (initialize_cluster spectra.length) spectra).getD i 0) 0 =
        (naive_cluster_spectra (initialize_cluster spectra.length) spectra).getD i 0) := by
  obtain ⟨_, _, hproc, _⟩ := cluster_run_hinv spectra spectra.length le_rfl
  obtain ⟨_, _, hproc2⟩ := naive_run_ninv spectra spectra.length le_rfl
  obtain ⟨hle, hroot, _⟩ := hproc i hi hi
  obtain ⟨hle2, hroot2, _⟩ := hproc2 i hi hi
  exact ⟨⟨hle, hroot⟩, ⟨hle2, hroot2⟩⟩

/-- C3 witness: instantiated at the pepmass-chain input at index 1 (whose
entry is 0, a root). -/
theorem c3_representatives_are_roots_witness :
    1 < exB.length ∧
    ((cluster_spectra (initialize_cluster exB.length) exB).getD 1 0 ≤ 1 ∧
      (cluster_spectra (initialize_cluster exB.length) exB).getD
        ((cluster_spectra (initialize_cluster exB.length) exB).getD 1 0) 0 =
        (cluster_spectra (initialize_cluster exB.length) exB).getD 1 0) :=
  ⟨by decide, (c3_representatives_are_roots exB 1 (by decide)).1⟩

/-- C2 counterexample: in the pepmass chain 500.0 / 501.5 / 498.5 with
identical peaks, spectra 1 and 2 are 3.0 apart (≥ 2.0) yet both drivers give
them the same representative 0: the pepmass gate does not dominate across a
cluster, only between a member and its representative. -/
theorem c2_pepmass_gate_counterexample :
    2 ≤ |(exB.getD 1 default).pepmass - (exB.getD 2 default).pepmass| ∧
    (cluster_spectra (initialize_cluster 3) exB).getD 1 0 =
      (cluster_spectra (initialize_cluster 3) exB).getD 2 0 ∧
    (naive_cluster_spectra (initialize_cluster 3) exB).getD 1 0 =
      (naive_cluster_spectra (initialize_cluster 3) exB).getD 2 0 :=
  ⟨by decide, by decide, by decide⟩

/-- C2 amended: the pepmass gate holds between every spectrum and the
representative it is merged into (for both drivers): if `r[i] ≠ i` then
`|pepmass(i) - pepmass(r[i])| < 2.0`.  Two members of the same cluster can
still be ≥ 2.0 apart transitively. -/
theorem c2_pepmass_gate_amended (spectra : List Spectrum) (i : ℕ)
    (hi : i < spectra.length) :
    ((cluster_spectra (initialize_cluster spectra.length) spectra).getD i 0 ≠ i →
      passes_pepmass_test (spectra.getD i default)
        (spectra.getD
          ((cluster_spectra (initialize_cluster spectra.length) spectra).getD i 0)
          default) = true) ∧
    ((naive_cluster_spectra (initialize_cluster spectra.length) spectra).getD i 0 ≠ i →
      passes_pepmass_test (spectra.getD i default)
        (spectra.getD
          ((naive_cluster_spectra (initialize_cluster spectra.length) spectra).getD i 0)
          default) = true) := by
  obtain ⟨_, _, hproc, _⟩ := cluster_run_hinv spectra spectra.length le_rfl
  obtain ⟨_, _, hproc2⟩ := naive_run_ninv spectra spectra.length le_rfl
  exact ⟨fun hne => ((hproc i hi hi).2.2 hne).1,
    fun hne => ((hproc2 i hi hi).2.2 hne).1⟩

/-- C2 amended witness: instantiated at the pepmass-chain input at index 1. -/
theorem c2_pepmass_gate_amended_witness :
    1 < exB.length ∧
    ((cluster_spectra (initialize_cluster exB.length) exB).getD 1 0 ≠ 1 →
      passes_pepmass_test (exB.getD 1 default)
        (exB.getD
          ((cluster_spectra (initialize_cluster exB.length) exB).getD 1 0)
          default) = true) :=
  ⟨by decide, (c2_pepmass_gate_amended exB 1 (by decide)).1⟩

/-- C8 amended: every bucket list is a non-decreasing list of indices of
spectra that remained their own representatives (an index may occur more
than once in the same bucket when several of its first `min(5, num_peaks)`
peaks share a key, see the counterexample), and candidate lookup returns a
strictly ascending, hence duplicate-free, list. -/
theorem c8_bucket_index_amended (spectra : List Spectrum) (k : ℕ) (key : String)
    (hk : k ≤ spectra.length) :
    List.Sorted (· ≤ ·)
      ((cluster_run (initialize_cluster spectra.length) spectra k).2 key) ∧
    (∀ c ∈ (cluster_run (initialize_cluster spectra.length) spectra k).2 key,
      c < k ∧ c < spectra.length ∧
      (cluster_run (initialize_cluster spectra.length) spectra k).1.getD c 0 = c) ∧
    (∀ s : Spectrum, List.Sorted (· < ·)
      (get_common_peak_candidates s
        (cluster_run (initialize_cluster spectra.length) spectra k).2)) := by
  obtain ⟨_, _, _, hbuck⟩ := cluster_run_hinv spectra k hk
  exact ⟨(hbuck key).2, (hbuck key).1,
    fun s => get_common_peak_candidates_sorted _ _⟩

/-- C8 amended witness: the duplicate bucket [0, 0] of the counterexample is
still non-decreasing and holds only the root 0. -/
theorem c8_bucket_index_amended_witness :
    1 ≤ ([exDup] : List Spectrum).length ∧
    List.Sorted (· ≤ ·)
      ((cluster_run (initialize_cluster ([exDup] : List Spectrum).length)
        [exDup] 1).2 "100.00") :=
  ⟨by decide, (c8_bucket_index_amended [exDup] 1 "100.00" (by decide)).1⟩

/-- C4: in the heuristic driver, step `i` scans the bucket-index candidates
in strictly ascending order; the scan is `find?` (first accepted candidate
wins); on success the state change is exactly `clusters[i] := c` with the
bucket index untouched, otherwise the clusters array is untouched (entry `i`
keeps the initial value `i`) and `i` is registered; later steps never
rewrite entry `i`. -/
theorem c4_heuristic_driver_contract (spectra : List Spectrum) (i : ℕ)
    (hi : i < spectra.length) :
    List.Sorted (· < ·)
      (get_common_peak_candidates (spectra.getD i default)
        (cluster_run (initialize_cluster spectra.length) spectra i).2) ∧
    find_candidate (spectra.getD i default) spectra
      (get_common_peak_candidates (spectra.getD i default)
        (cluster_run (initialize_cluster spectra.length) spectra i).2) =
      (get_common_peak_candidates (spectra.getD i default)
        (cluster_run (initialize_cluster spectra.length) spectra i).2).find?
        (accepts_candidate (spectra.getD i default) spectra) ∧
    (match (get_common_peak_candidates (spectra.getD i default)
        (cluster_run (initialize_cluster spectra.length) spectra i).2).find?
        (accepts_candidate (spectra.getD i default) spectra) with
     | some c =>
        (cluster_run (initialize_cluster spectra.length) spectra (i+1)).1 =
          (cluster_run (initialize_cluster spectra.length) spectra i).1.set i c ∧
        (cluster_run (initialize_cluster spectra.length) spectra (i+1)).2 =
          (cluster_run (initialize_cluster spectra.length) spectra i).2
     | none =>
        (cluster_run (initialize_cluster spectra.length) spectra (i+1)).1 =
          (cluster_run (initialize_cluster spectra.length) spectra i).1 ∧
        (cluster_run (initialize_cluster spectra.length) spectra (i+1)).1.getD i 0 = i ∧
        (cluster_run (initialize_cluster spectra.length) spectra (i+1)).2 =
          bucket_spectrum_peaks
            (cluster_run (initialize_cluster spectra.length) spectra i).2
            (spectra.getD i default) i) ∧
    (cluster_spectra (initialize_cluster spectra.length) spectra).getD i 0 =
      (cluster_run (initialize_cluster spectra.length) spectra (i+1)).1.getD i 0 := by
  refine ⟨get_common_peak_candidates_sorted _ _, find_candidate_eq_find? _ _ _,
    ?_, cluster_spectra_getD spectra i hi⟩
  have hidp := (cluster_run_hinv spectra i (le_of_lt hi)).2.1 i le_rfl hi
  rw [cluster_run_succ, cluster_step, find_candidate_eq_find?]
  cases hfind : (get_common_peak_candidates (spectra.getD i default)
      (cluster_run (initialize_cluster spectra.length) spectra i).2).find?
      (accepts_candidate (spectra.getD i default) spectra) with
  | some c => exact ⟨rfl, rfl⟩
  | none => exact ⟨rfl, hidp, rfl⟩

/-- C4 witness: instantiated at the scenario-A input at index 1 (candidate
lookup yields the sorted singleton [0]). -/
theorem c4_heuristic_driver_contract_witness :
    1 < ([exA0, exA1, exA2] : List Spectrum).length ∧
    List.Sorted (· < ·)
      (get_common_peak_candidates (([exA0, exA1, exA2] : List Spectrum).getD 1 default)
        (cluster_run (initialize_cluster ([exA0, exA1, exA2] : List Spectrum).length)
          [exA0, exA1, exA2] 1).2) :=
  ⟨by decide, (c4_heuristic_driver_contract [exA0, exA1, exA2] 1 (by decide)).1⟩

/-- C5: in the naive driver, step `i` tests the current representatives
`clusters[j]` of the earlier indices `j = 0..i-1` in ascending order (the
seen-set only skips candidates that already failed, so the outcome is
`find?` over that candidate sequence); the first accepted candidate is
written to `clusters[i]`, otherwise entry `i` keeps the value `i`; later
steps never rewrite entry `i`. -/
theorem c5_naive_driver_contract (spectra : List Spectrum) (i : ℕ)
    (h1 : 1 ≤ i) (hi : i < spectra.length) :
    naive_run (initialize_cluster spectra.length) spectra (i+1) =
      (match ((List.range i).map fun j =>
          (naive_run (initialize_cluster spectra.length) spectra i).getD j 0).find?
          (accepts_candidate (spectra.getD i default) spectra) with
       | some c =>
          (naive_run (initialize_cluster spectra.length) spectra i).set i c
       | none => naive_run (initialize_cluster spectra.length) spectra i) ∧
    (naive_run (initialize_cluster spectra.length) spectra (i+1)).getD i 0 =
      (((List.range i).map fun j =>
          (naive_run (initialize_cluster spectra.length) spectra i).getD j 0).find?
          (accepts_candidate (spectra.getD i default) spectra)).getD i ∧
    (naive_cluster_spectra (initialize_cluster spectra.length) spectra).getD i 0 =
      (naive_run (initialize_cluster spectra.length) spectra (i+1)).getD i 0 := by
  obtain ⟨hlen, hid, _⟩ := naive_run_ninv spectra i (le_of_lt hi)
  refine ⟨?_, ?_, naive_cluster_spectra_getD spectra i hi⟩
  · rw [naive_run_succ _ _ h1, naive_step,
      naive_inner_eq_find? _ _ (fun c hc => absurd hc (List.not_mem_nil c))]
  · rw [naive_run_succ _ _ h1, naive_step,
      naive_inner_eq_find? _ _ (fun c hc => absurd hc (List.not_mem_nil c))]
    cases hfind : ((List.range i).map fun j =>
        (naive_run (initialize_cluster spectra.length) spectra i).getD j 0).find?
        (accepts_candidate (spectra.getD i default) spectra) with
    | some c =>
      show ((naive_run (initialize_cluster spectra.length) spectra i).set i c).getD
          i 0 = (some c).getD i
      rw [getD_set_self (by rw [hlen]; exact hi)]
      rfl
    | none =>
      show (naive_run (initialize_cluster spectra.length) spectra i).getD i 0 =
        (Option.none : Option ℕ).getD i
      rw [hid i le_rfl hi]
      rfl

/-- C5 witness: instantiated at the pepmass-chain input at index 1. -/
theorem c5_naive_driver_contract_witness :
    (1 ≤ 1 ∧ 1 < exB.length) ∧
    (naive_cluster_spectra (initialize_cluster exB.length) exB).getD 1 0 =
      (naive_run (initialize_cluster exB.length) exB 2).getD 1 0 :=
  ⟨⟨le_rfl, by decide⟩,
    (c5_naive_driver_contract exB 1 le_rfl (by decide)).2.2⟩

end Proofs

end SparseClustering
